import Mathlib

/-!
Verification of `dbms/src/Dictionaries/DictionaryBlockInputStream.h`:
the streaming adapter that turns bulk dictionary lookups into columnar
blocks, in surrogate-id mode or composite-key mode.

The adapter itself (`fillBlock`, `getBlock`, `getColumnFromIds`,
`getColumnFromAttribute`, `getColumnFromStringAttribute`,
`fillKeyColumns`, the two constructors) is translated directly from the
header.  External collaborators (the column classes' `cut` and
`deserializeAndInsertFromArena` bodies, the dictionary's bulk getters)
are not part of that file and are modelled from the specification, as
noted on each such definition.
-/

set_option linter.unusedVariables false

namespace DB

/-- Underlying storage type tags of dictionary attributes
(the `AttributeUnderlyingType` enumeration): ten fixed-width numeric
kinds plus variable-length strings.  The catalog is closed; the
dispatch switch in `fillBlock` enumerates exactly these cases with no
default branch. -/
inductive AttributeUnderlyingType where
  | uint8
  | uint16
  | uint32
  | uint64
  | int8
  | int16
  | int32
  | int64
  | float32
  | float64
  | string
  deriving DecidableEq, Repr, Fintype

/-- Byte width consumed by the arena decoder for one value of the given
tag: `sizeof(TYPE)` for the fixed-width kinds; for `string` it is the
width of the length prefix that precedes the payload bytes. -/
def byteWidth : AttributeUnderlyingType → Nat
  | .uint8 => 1
  | .uint16 => 2
  | .uint32 => 4
  | .uint64 => 8
  | .int8 => 1
  | .int16 => 2
  | .int32 => 4
  | .int64 => 8
  | .float32 => 4
  | .float64 => 8
  | .string => 8

/-- Little-endian reading of a byte sequence as an unsigned number:
the raw bit pattern `memcpy` would place in a fixed-width cell. -/
def bytesLE : List Nat → Nat
  | [] => 0
  | b :: rest => b % 256 + 256 * bytesLE rest

/-- A materialized column: `ColumnVector<TYPE>` (cells hold the raw
bit patterns of the fixed-width values) or `ColumnString` (cells hold
byte sequences). -/
inductive Column where
  | vec (tag : AttributeUnderlyingType) (data : List Nat)
  | str (data : List (List Nat))
  deriving DecidableEq, Repr

/-- Number of rows stored in a column (`IColumn::size`). -/
def Column.size : Column → Nat
  | .vec _ d => d.length
  | .str d => d.length

/-- The shape of a column: which concrete column class it is, with its
tag for vector columns.  Used to state that decoding behaviour depends
only on the column's type, never on the rows already stored. -/
inductive ColumnShape where
  | vec (tag : AttributeUnderlyingType)
  | str
  deriving DecidableEq, Repr

/-- Shape of a column, forgetting the stored rows. -/
def Column.shape : Column → ColumnShape
  | .vec tag _ => .vec tag
  | .str _ => .str

/-- Minimum number of bytes the decoder for a column shape must find
before reading: the fixed width for vector columns, the 8-byte length
prefix for string columns. -/
def minDecodeBytes : ColumnShape → Nat
  | .vec tag => byteWidth tag
  | .str => 8

/-- Modelled from the spec: `IColumn::cut(start, length)` lives in the
column classes, outside this file; per the spec a window call "emits
... the slice [start, start+length)" of a column. -/
def Column.cut : Column → Nat → Nat → Column
  | .vec tag data, start, length => .vec tag ((data.drop start).take length)
  | .str data, start, length => .str ((data.drop start).take length)

/-- Modelled from the spec: the bodies of
`ColumnVector<T>::deserializeAndInsertFromArena` and
`ColumnString::deserializeAndInsertFromArena` live in `Columns/`,
outside this file.  Per the spec, each decoder "must validate that at
least the minimum required bytes remain before reading" and reads
exactly the per-type width; string cells are read as an 8-byte length
prefix followed by that many payload bytes.  On success it appends the
decoded value and returns the advanced cursor. -/
def Column.deserializeAndInsertFromArena :
    Column → List Nat → Nat → Except String (Column × Nat)
  | .vec tag data, span, pos =>
    if pos + byteWidth tag ≤ span.length then
      .ok (.vec tag (data ++ [bytesLE ((span.drop pos).take (byteWidth tag))]),
           pos + byteWidth tag)
    else
      .error "Column: insufficient bytes in arena"
  | .str data, span, pos =>
    if pos + 8 ≤ span.length then
      if pos + 8 + bytesLE ((span.drop pos).take 8) ≤ span.length then
        .ok (.str (data ++ [(span.drop (pos + 8)).take (bytesLE ((span.drop pos).take 8))]),
             pos + 8 + bytesLE ((span.drop pos).take 8))
      else
        .error "Column: insufficient bytes in arena"
    else
      .error "Column: insufficient bytes in arena"

/-- Cursor advance of one decode step, determined by the column shape
alone: `some` of the new cursor when enough bytes remain, `none` when
the step would run out of bytes. -/
def cellStep : ColumnShape → List Nat → Nat → Option Nat
  | .vec tag, span, pos =>
    if pos + byteWidth tag ≤ span.length then some (pos + byteWidth tag) else none
  | .str, span, pos =>
    if pos + 8 ≤ span.length then
      if pos + 8 + bytesLE ((span.drop pos).take 8) ≤ span.length then
        some (pos + 8 + bytesLE ((span.drop pos).take 8))
      else none
    else none

/-- Cursor after decoding one cell for each shape in order, starting
from `pos`; `none` if any step runs out of bytes. -/
def spanCursor : List ColumnShape → List Nat → Nat → Option Nat
  | [], _, pos => some pos
  | s :: rest, span, pos =>
    match cellStep s span pos with
    | some pos' => spanCursor rest span pos'
    | none => none

/-- The value a decode step appends to a column, as a function of the
span and cursor only (data-independent). -/
def Column.pushCell : Column → List Nat → Nat → Column
  | .vec tag data, span, pos =>
    .vec tag (data ++ [bytesLE ((span.drop pos).take (byteWidth tag))])
  | .str data, span, pos =>
    .str (data ++ [(span.drop (pos + 8)).take (bytesLE ((span.drop pos).take 8))])

/-- Same-shaped column with no rows. -/
def Column.emptied : Column → Column
  | .vec tag _ => .vec tag []
  | .str _ => .str []

/-- Row-wise concatenation of two same-shaped columns (the first
argument's rows first). -/
def Column.appendData : Column → Column → Column
  | .vec tag d, .vec _ d2 => .vec tag (d ++ d2)
  | .str d, .str d2 => .str (d ++ d2)
  | c, _ => c

/-- One attribute descriptor of the dictionary structure
(`DictionaryAttribute`): its name, its declared logical type (opaque to
the adapter, carried through into the block), and its underlying
storage type tag. -/
structure DictionaryAttribute where
  name : String
  underlying_type : AttributeUnderlyingType
  type : String
  deriving DecidableEq, Repr

/-- The logical type attached to the surrogate-id column emitted by
`fillBlock` (`std::make_shared<DataTypeUInt64>()`). -/
def DataTypeUInt64 : String := "UInt64"

/-- The dictionary structure (`DictionaryStructure`): an optional
surrogate-id descriptor, an optional ordered list of composite-key
sub-field descriptors, and the ordered attribute descriptors. -/
structure DictionaryStructure where
  id : Option DictionaryAttribute
  key : Option (List DictionaryAttribute)
  attributes : List DictionaryAttribute
  deriving DecidableEq, Repr

/-- A column together with its type and name
(`ColumnWithTypeAndName`). -/
structure ColumnWithTypeAndName where
  column : Column
  type : String
  name : String
  deriving DecidableEq, Repr

/-- A block (`Block(columns)`): the ordered sequence of named, typed
columns handed to the caller.  The `Block` class itself is external to
the translated file; per the spec's data model it is exactly this
ordered sequence of (column, type, name) triples. -/
structure Block where
  columns : List ColumnWithTypeAndName
  deriving DecidableEq, Repr

/-- The external dictionary, as consumed by the adapter: its structure
(`getStructure()`) and its four bulk-lookup entry-point families.  The
ten typed getters `get<TYPE>` are indexed by the underlying type tag;
each takes the attribute name and either the id sequence (by-id shape)
or the key columns plus their declared types (by-key shape), together
with the output buffer it fills, and returns the filled buffer. -/
structure DictionaryType where
  getStructure : DictionaryStructure
  getById : AttributeUnderlyingType → String → List Nat → List Nat → List Nat
  getStringById : String → List Nat → List (List Nat) → List (List Nat)
  getByKey : AttributeUnderlyingType → String → List Column → List String → List Nat → List Nat
  getStringByKey : String → List Column → List String → List (List Nat) → List (List Nat)

/-- Which getter family `fillBlockFunction` was instantiated with at
construction: `fillBlock<DictionaryGetter, DictionaryStringGetter>` for
the id constructor, `fillBlock<GetterByKey, StringGetterByKey>` for the
key constructor. -/
inductive GetterMode where
  | byId
  | byKey
  deriving DecidableEq, Repr

/-- `getColumnFromIds`: widen/copy the id sequence into a fresh
unsigned 64-bit column (`ColumnVector<UInt64>`, one `insert` per id). -/
def getColumnFromIds (ids : List Nat) : Column :=
  .vec .uint64 ids

/-- `getColumnFromAttribute<AttributeType, Getter>`: allocate a
fixed-width column of `ids.size()` rows — or `keys.front()->size()`
rows when key columns are present — and have the dictionary fill it
through the getter selected for the active mode (`callGetter` passes
`(name, ids, out)` for the by-id shape and `(name, keys, data_types,
out)` for the by-key shape). -/
def getColumnFromAttribute (mode : GetterMode) (tag : AttributeUnderlyingType)
    (ids : List Nat) (keys : List Column) (data_types : List String)
    (attr : DictionaryAttribute) (dictionary : DictionaryType) : Column :=
  let size := match keys with
    | [] => ids.length
    | k :: _ => k.size
  let out := List.replicate size 0
  match mode with
  | .byId => .vec tag (dictionary.getById tag attr.name ids out)
  | .byKey => .vec tag (dictionary.getByKey tag attr.name keys data_types out)

/-- `getColumnFromStringAttribute<Getter>`: allocate an empty string
column and have the dictionary fill it through `getString` in the
shape of the active mode. -/
def getColumnFromStringAttribute (mode : GetterMode)
    (ids : List Nat) (keys : List Column) (data_types : List String)
    (attr : DictionaryAttribute) (dictionary : DictionaryType) : Column :=
  match mode with
  | .byId => .str (dictionary.getStringById attr.name ids [])
  | .byKey => .str (dictionary.getStringByKey attr.name keys data_types [])

/-- The attribute dispatch switch of `fillBlock`: a closed switch on
`attr.underlying_type` with one case per tag of the catalog and no
default branch; each numeric case calls `getColumnFromAttribute` with
`&DictionaryType::get<TYPE>`, the string case calls
`getColumnFromStringAttribute` with `&DictionaryType::getString`. -/
def getColumnForAttribute (mode : GetterMode)
    (ids : List Nat) (keys : List Column) (data_types : List String)
    (attr : DictionaryAttribute) (dictionary : DictionaryType) : Column :=
  match attr.underlying_type with
  | .uint8 => getColumnFromAttribute mode .uint8 ids keys data_types attr dictionary
  | .uint16 => getColumnFromAttribute mode .uint16 ids keys data_types attr dictionary
  | .uint32 => getColumnFromAttribute mode .uint32 ids keys data_types attr dictionary
  | .uint64 => getColumnFromAttribute mode .uint64 ids keys data_types attr dictionary
  | .int8 => getColumnFromAttribute mode .int8 ids keys data_types attr dictionary
  | .int16 => getColumnFromAttribute mode .int16 ids keys data_types attr dictionary
  | .int32 => getColumnFromAttribute mode .int32 ids keys data_types attr dictionary
  | .int64 => getColumnFromAttribute mode .int64 ids keys data_types attr dictionary
  | .float32 => getColumnFromAttribute mode .float32 ids keys data_types attr dictionary
  | .float64 => getColumnFromAttribute mode .float64 ids keys data_types attr dictionary
  | .string => getColumnFromStringAttribute mode ids keys data_types attr dictionary

/-- `fillBlock<Getter, StringGetter>`: build the requested-name set,
split the incoming key columns into bare columns and types, then emit,
in order: the id column (when the structure declares a surrogate id
whose name is requested), the key columns whose names are requested,
and — for each structure attribute in order whose name is requested —
the column materialized by the dispatch switch. -/
def fillBlock (mode : GetterMode) (dictionary : DictionaryType)
    (column_names : List String)
    (ids : List Nat) (keys : List ColumnWithTypeAndName) : Block :=
  let key_columns : List Column := keys.map (fun k => k.column)
  let data_types : List String := keys.map (fun k => k.type)
  let st := dictionary.getStructure
  let idCols : List ColumnWithTypeAndName :=
    match st.id with
    | some idAttr =>
      if idAttr.name ∈ column_names then
        [⟨getColumnFromIds ids, DataTypeUInt64, idAttr.name⟩]
      else []
    | none => []
  let keyCols : List ColumnWithTypeAndName :=
    keys.filter (fun k => decide (k.name ∈ column_names))
  let attrCols : List ColumnWithTypeAndName :=
    (st.attributes.filter (fun a => decide (a.name ∈ column_names))).map
      (fun attr =>
        ⟨getColumnForAttribute mode ids key_columns data_types attr dictionary,
         attr.type, attr.name⟩)
  Block.mk (idCols ++ keyCols ++ attrCols)

/-- The column-allocation loop at the head of `fillKeyColumns`: for
each key sub-field descriptor, in structure order, push a fresh empty
column of the matching concrete class (`ADD_COLUMN(TYPE)` for the ten
fixed-width cases, `ColumnString` for the string case), tagged with the
sub-field's declared type and name. -/
def fillKeyColumnsAlloc (key_attrs : List DictionaryAttribute) :
    List ColumnWithTypeAndName :=
  key_attrs.map (fun attr =>
    match attr.underlying_type with
    | .uint8 => ⟨.vec .uint8 [], attr.type, attr.name⟩
    | .uint16 => ⟨.vec .uint16 [], attr.type, attr.name⟩
    | .uint32 => ⟨.vec .uint32 [], attr.type, attr.name⟩
    | .uint64 => ⟨.vec .uint64 [], attr.type, attr.name⟩
    | .int8 => ⟨.vec .int8 [], attr.type, attr.name⟩
    | .int16 => ⟨.vec .int16 [], attr.type, attr.name⟩
    | .int32 => ⟨.vec .int32 [], attr.type, attr.name⟩
    | .int64 => ⟨.vec .int64 [], attr.type, attr.name⟩
    | .float32 => ⟨.vec .float32 [], attr.type, attr.name⟩
    | .float64 => ⟨.vec .float64 [], attr.type, attr.name⟩
    | .string => ⟨.str [], attr.type, attr.name⟩)

/-- The inner cursor walk of `fillKeyColumns` for one span: each column
in order decodes-and-appends one value starting at the cursor
(`ptr = column.column->deserializeAndInsertFromArena(ptr)`), and the
cursor after the last column is returned. -/
def deserializeSpanStep (columns : List ColumnWithTypeAndName)
    (span : List Nat) (pos : Nat) :
    Except String (List ColumnWithTypeAndName × Nat) :=
  match columns with
  | [] => .ok ([], pos)
  | c :: rest =>
    match c.column.deserializeAndInsertFromArena span pos with
    | .ok (c', pos') =>
      match deserializeSpanStep rest span pos' with
      | .ok (rest', posEnd) => .ok (⟨c', c.type, c.name⟩ :: rest', posEnd)
      | .error e => .error e
    | .error e => .error e

/-- Processing of one span by `fillKeyColumns`: walk the cursor from
the span's start through every column, then require the cursor to
equal exactly the span's end (`if (ptr != key.data + key.size) throw
Exception(...)`). -/
def fillKeyColumnsSpan (columns : List ColumnWithTypeAndName)
    (span : List Nat) : Except String (List ColumnWithTypeAndName) :=
  match deserializeSpanStep columns span 0 with
  | .ok (columns', ptr) =>
    if ptr = span.length then .ok columns'
    else .error "DictionaryBlockInputStream: unable to deserialize data"
  | .error e => .error e

/-- The index loop of `fillKeyColumns` (`for idx in ext::range(start,
size)`): process `keys[idx]` for each index, threading the columns;
the first failure aborts the whole call. -/
def fillKeyColumnsLoop (keys : List (List Nat)) :
    List ColumnWithTypeAndName → List Nat →
    Except String (List ColumnWithTypeAndName)
  | columns, [] => .ok columns
  | columns, idx :: rest =>
    match fillKeyColumnsSpan columns (keys.getD idx []) with
    | .ok columns' => fillKeyColumnsLoop keys columns' rest
    | .error e => .error e

/-- `fillKeyColumns(keys, start, size, dictionary_structure, columns)`:
allocate one empty typed column per key sub-field of the structure,
then decode each serialized span with index in `[start, size)` into
them.  (The C++ dereferences `*dictionary_structure.key`; the model is
meaningful only when the key descriptors are present, which theorems
hypothesize.) -/
def fillKeyColumns (keys : List (List Nat)) (start size : Nat)
    (dictionary_structure : DictionaryStructure) :
    Except String (List ColumnWithTypeAndName) :=
  fillKeyColumnsLoop keys
    (fillKeyColumnsAlloc (dictionary_structure.key.getD []))
    (List.range' start (size - start))

/-- The adapter's construction-time state: the dictionary reference,
the requested column names, the stored id array, the key columns
decoded at construction (composite mode), and the `fillBlock`
instantiation selected by the constructor. -/
structure DictionaryBlockInputStream where
  dictionary : DictionaryType
  column_names : List String
  ids : List Nat
  key_columns : List ColumnWithTypeAndName
  fillBlockFunction : GetterMode

/-- The id constructor: store the moved-in ids and requested names;
`key_columns` stays empty; `fillBlockFunction` is the by-id
instantiation.  `max_block_size` is forwarded to the external stream
base together with `ids.size()` as the total row count. -/
def DictionaryBlockInputStream.ofIds (dictionary : DictionaryType)
    (max_block_size : Nat) (ids : List Nat) (column_names : List String) :
    DictionaryBlockInputStream :=
  { dictionary := dictionary
    column_names := column_names
    ids := ids
    key_columns := []
    fillBlockFunction := .byId }

/-- The key constructor: store the requested names, leave `ids` empty,
select the by-key `fillBlock` instantiation, and decode the whole span
sequence once — `fillKeyColumns(keys, 0, keys.size(), structure,
key_columns)` — into the stored key columns.  A decode failure aborts
construction. -/
def DictionaryBlockInputStream.ofKeys (dictionary : DictionaryType)
    (max_block_size : Nat) (keys : List (List Nat))
    (column_names : List String) :
    Except String DictionaryBlockInputStream :=
  match fillKeyColumns keys 0 keys.length dictionary.getStructure with
  | .ok key_columns =>
    .ok { dictionary := dictionary
          column_names := column_names
          ids := []
          key_columns := key_columns
          fillBlockFunction := .byKey }
  | .error e => .error e

/-- The `ids.empty()` branch of `getBlock`: cut each stored key column
to the window `[start, start+length)` and hand the slices (with an
empty id sequence) to the stored `fillBlock` instantiation. -/
def DictionaryBlockInputStream.getBlockKeyPath
    (s : DictionaryBlockInputStream) (start length : Nat) : Block :=
  fillBlock s.fillBlockFunction s.dictionary s.column_names []
    (s.key_columns.map (fun kc => ⟨kc.column.cut start length, kc.type, kc.name⟩))

/-- The non-empty-ids branch of `getBlock`: copy the id slice
`ids[start .. start+length)` and hand it (with no key columns) to the
stored `fillBlock` instantiation. -/
def DictionaryBlockInputStream.getBlockIdPath
    (s : DictionaryBlockInputStream) (start length : Nat) : Block :=
  fillBlock s.fillBlockFunction s.dictionary s.column_names
    ((s.ids.drop start).take length) []

/-- `getBlock(start, length)`: branch on `ids.empty()` — the key path
when the stored id array is empty, the id path otherwise. -/
def DictionaryBlockInputStream.getBlock
    (s : DictionaryBlockInputStream) (start length : Nat) : Block :=
  if s.ids.isEmpty then s.getBlockKeyPath start length
  else s.getBlockIdPath start length

/-- State-passing form of the `const` member `getBlock`: every
statement of the body reads a field or builds a local, so the adapter
state after the call is the state before it; the pair returned is
(post-call state, produced block). -/
def DictionaryBlockInputStream.getBlockSt
    (s : DictionaryBlockInputStream) (start length : Nat) :
    DictionaryBlockInputStream × Block :=
  (s, s.getBlock start length)

/-- Run a sequence of produce calls against an adapter, threading the
adapter state through `getBlockSt` and collecting the blocks. -/
def runProduceCalls (s : DictionaryBlockInputStream) :
    List (Nat × Nat) → DictionaryBlockInputStream × List Block
  | [] => (s, [])
  | c :: rest =>
    let sb := s.getBlockSt c.1 c.2
    let rb := runProduceCalls sb.1 rest
    (rb.1, sb.2 :: rb.2)

/-- Shapes of a column list. -/
def colShapes (columns : List ColumnWithTypeAndName) : List ColumnShape :=
  columns.map (fun c => c.column.shape)

/-- Same columns with all rows removed. -/
def emptiedCols (columns : List ColumnWithTypeAndName) :
    List ColumnWithTypeAndName :=
  columns.map (fun c => ⟨c.column.emptied, c.type, c.name⟩)

/-- Row-wise concatenation of two parallel column lists. -/
def zipAppendCols : List ColumnWithTypeAndName → List ColumnWithTypeAndName →
    List ColumnWithTypeAndName
  | c :: cs, d :: ds => ⟨c.column.appendData d.column, c.type, c.name⟩ :: zipAppendCols cs ds
  | cs, [] => cs
  | [], _ => []

/-- The columns after one span is decoded into them, written as a pure
append: each column receives the cell its shape reads at its cursor
position, the cursor being advanced by `cellStep`. -/
def pushSpan : List ColumnWithTypeAndName → List Nat → Nat →
    List ColumnWithTypeAndName
  | [], _, _ => []
  | c :: rest, span, pos =>
    ⟨c.column.pushCell span pos, c.type, c.name⟩ ::
      pushSpan rest span ((cellStep c.column.shape span pos).getD 0)

/-- The columns after a sequence of spans is decoded into them, one
span after the other, each starting at cursor 0. -/
def pushSpans : List ColumnWithTypeAndName → List (List Nat) →
    List ColumnWithTypeAndName
  | columns, [] => columns
  | columns, span :: rest => pushSpans (pushSpan columns span 0) rest

/-- The decode loop expressed over the span list itself rather than
over indices. -/
def spanListLoop : List ColumnWithTypeAndName → List (List Nat) →
    Except String (List ColumnWithTypeAndName)
  | columns, [] => .ok columns
  | columns, span :: rest =>
    match fillKeyColumnsSpan columns span with
    | .ok columns' => spanListLoop columns' rest
    | .error e => .error e

/-- A span decodes exactly against a list of column shapes: the cursor
walk succeeds and ends precisely at the span's end offset. -/
def SpanDecodesExactly (shapes : List ColumnShape) (span : List Nat) : Prop :=
  spanCursor shapes span 0 = some span.length

/-- The windows `(start, length)` induced by a list of window lengths,
laid out consecutively from `start`. -/
def windowsOf : List Nat → Nat → List (Nat × Nat)
  | [], _ => []
  | l :: ls, start => (start, l) :: windowsOf ls (start + l)

/-- The first column of a block carrying the given name, if any. -/
def Block.findColumn (b : Block) (name : String) : Option Column :=
  (b.columns.find? (fun c => decide (c.name = name))).map (fun c => c.column)

/-- Rows of a vector column (empty for a string column). -/
def Column.vecData : Column → List Nat
  | .vec _ d => d
  | .str _ => []

/-- Every column name the dictionary structure declares: the surrogate
id name, the key sub-field names, the attribute names. -/
def structureNames (st : DictionaryStructure) : List String :=
  (match st.id with
   | some a => [a.name]
   | none => []) ++
  (st.key.getD []).map (fun a => a.name) ++
  st.attributes.map (fun a => a.name)

/-- The concrete column class the dispatch switch of `fillBlock`
selects for each underlying type tag: `ColumnVector<TYPE>` for each of
the ten fixed-width tags, `ColumnString` for the string tag. -/
def expectedShape : AttributeUnderlyingType → ColumnShape
  | .uint8 => .vec .uint8
  | .uint16 => .vec .uint16
  | .uint32 => .vec .uint32
  | .uint64 => .vec .uint64
  | .int8 => .vec .int8
  | .int16 => .vec .int16
  | .int32 => .vec .int32
  | .int64 => .vec .int64
  | .float32 => .vec .float32
  | .float64 => .vec .float64
  | .string => .str

/-- The external dictionary's bulk-lookup contract, delegated by the
spec to the dictionary: each typed getter fills the buffer it is given
without changing its length, and each string getter produces exactly
one value per input row (per id in the by-id shape, per key-column row
in the by-key shape). -/
def DictionaryType.WellBehaved (dict : DictionaryType) : Prop :=
  (∀ tag name ids out, (dict.getById tag name ids out).length = out.length) ∧
  (∀ name ids, (dict.getStringById name ids []).length = ids.length) ∧
  (∀ tag name keys data_types out,
    (dict.getByKey tag name keys data_types out).length = out.length) ∧
  (∀ name keys data_types k ks, keys = k :: ks →
    (dict.getStringByKey name keys data_types []).length = Column.size k)

/-- Surrogate-id descriptor of the demonstration dictionary. -/
def demoIdAttr : DictionaryAttribute :=
  { name := "id", underlying_type := .uint64, type := "UInt64" }

/-- Attribute descriptor of the demonstration dictionaries. -/
def demoXAttr : DictionaryAttribute :=
  { name := "x", underlying_type := .int32, type := "Int32" }

/-- Structure of the demonstration surrogate-id dictionary. -/
def demoIdStructure : DictionaryStructure :=
  { id := some demoIdAttr, key := none, attributes := [demoXAttr] }

/-- A concrete surrogate-id dictionary used by witnesses: its typed
getters return the buffer unchanged and its string getters produce one
empty string per row. -/
def demoIdDict : DictionaryType :=
  { getStructure := demoIdStructure
    getById := fun _ _ _ out => out
    getStringById := fun _ ids _ => ids.map (fun _ => [])
    getByKey := fun _ _ _ _ out => out
    getStringByKey := fun _ keys _ _ =>
      match keys with
      | k :: _ => List.replicate k.size []
      | [] => [] }

/-- Key sub-field descriptor of the demonstration composite-key
dictionary: a single one-byte unsigned sub-field. -/
def demoKeyAttr : DictionaryAttribute :=
  { name := "k1", underlying_type := .uint8, type := "UInt8" }

/-- Structure of the demonstration composite-key dictionary. -/
def demoKeyStructure : DictionaryStructure :=
  { id := none, key := some [demoKeyAttr], attributes := [demoXAttr] }

/-- A concrete composite-key dictionary used by witnesses. -/
def demoKeyDict : DictionaryType :=
  { getStructure := demoKeyStructure
    getById := fun _ _ _ out => out
    getStringById := fun _ ids _ => ids.map (fun _ => [])
    getByKey := fun _ _ _ _ out => out
    getStringByKey := fun _ keys _ _ =>
      match keys with
      | k :: _ => List.replicate k.size []
      | [] => [] }

theorem take_add_eq {α : Type _} (l : List α) (m n : Nat) :
    l.take (m + n) = l.take m ++ (l.drop m).take n := by
  induction l generalizing m n with
  | nil => simp
  | cons a t ih =>
    cases m with
    | zero => simp
    | succ m => simpa [Nat.succ_add] using ih m n

/-- Claim C6: the attribute dispatch of `fillBlock` is a total function
over the closed catalog of underlying type tags — for every tag the
switch materializes a column of exactly the one concrete class the tag
maps to (through the entry point `get<TYPE>` indexed by that tag, or
`getString`), whatever the dictionary, mode and inputs; and the mapping
from tags to column classes is injective, so no two tags share a case
and there is no silent default.  A tag outside the catalog is not
representable: the enumeration is closed and the switch has no default
branch. -/
theorem attribute_dispatch_total_and_injective :
    (∀ (mode : GetterMode) (ids : List Nat) (keys : List Column)
       (data_types : List String) (attr : DictionaryAttribute)
       (dict : DictionaryType),
       (getColumnForAttribute mode ids keys data_types attr dict).shape
         = expectedShape attr.underlying_type) ∧
    Function.Injective expectedShape := by
  constructor
  · intro mode ids keys data_types attr dict
    obtain ⟨nm, ut, ty⟩ := attr
    cases ut <;> cases mode <;>
      simp [getColumnForAttribute, getColumnFromAttribute,
        getColumnFromStringAttribute, expectedShape, Column.shape]
  · decide

/-- Claim C8: each per-type decode step checks that at least the
minimum required bytes remain in the span before reading — a span with
too few remaining bytes makes the step fail loudly with an error — and
a successful step never advances the cursor past the span's end, so no
read goes out of bounds. -/
theorem decoder_validates_remaining_bytes :
    (∀ (c : Column) (span : List Nat) (pos : Nat),
       span.length < pos + minDecodeBytes c.shape →
       c.deserializeAndInsertFromArena span pos
         = .error "Column: insufficient bytes in arena") ∧
    (∀ (c : Column) (span : List Nat) (pos : Nat) (c' : Column) (pos' : Nat),
       c.deserializeAndInsertFromArena span pos = .ok (c', pos') →
       pos' ≤ span.length) := by
  constructor
  · intro c span pos h
    cases c with
    | vec tag data =>
      simp [Column.shape, minDecodeBytes] at h
      rw [Column.deserializeAndInsertFromArena, if_neg (by omega)]
    | str data =>
      simp [Column.shape, minDecodeBytes] at h
      rw [Column.deserializeAndInsertFromArena, if_neg (by omega)]
  · intro c span pos c' pos' h
    cases c with
    | vec tag data =>
      rw [Column.deserializeAndInsertFromArena] at h
      split at h
      · have h2 := congrArg Prod.snd (Except.ok.inj h)
        simp at h2
        rename_i hle
        omega
      · exact absurd h (by simp)
    | str data =>
      rw [Column.deserializeAndInsertFromArena] at h
      split at h
      · split at h
        · have := congrArg Prod.snd (Except.ok.inj h)
          simp at this
          omega
        · exact absurd h (by simp)
      · exact absurd h (by simp)

/-- Witness for C8 at a concrete input: a 32-bit cell cannot be read
from a two-byte span. -/
theorem decoder_validates_remaining_bytes_witness :
    List.length [1, 2] < 0 + minDecodeBytes (Column.vec .uint32 []).shape ∧
    Column.deserializeAndInsertFromArena (.vec .uint32 []) [1, 2] 0
      = .error "Column: insufficient bytes in arena" :=
  ⟨by decide, decoder_validates_remaining_bytes.1 (.vec .uint32 []) [1, 2] 0 (by decide)⟩

/-- Claim C9: a produce call does not mutate the adapter: in the
state-passing reading of the `const` member `getBlock`, any sequence of
produce calls leaves the construction-time state unchanged, and every
block in the sequence is the one computed from the initial state alone
(prior calls have no effect on later ones). -/
theorem produce_calls_leave_state_unchanged :
    ∀ (s : DictionaryBlockInputStream) (calls : List (Nat × Nat)),
      (runProduceCalls s calls).1 = s ∧
      (runProduceCalls s calls).2 = calls.map (fun c => s.getBlock c.1 c.2) := by
  intro s calls
  induction calls with
  | nil => exact ⟨rfl, rfl⟩
  | cons c rest ih =>
    exact ⟨by simp [runProduceCalls, DictionaryBlockInputStream.getBlockSt, ih.1],
           by simp [runProduceCalls, DictionaryBlockInputStream.getBlockSt, ih.2]⟩

/-- Claim C10: `getBlock` chooses between the key-column path and the
id path by testing whether the stored id array is empty — not by which
constructor ran.  Hence an adapter built by the id constructor with an
empty id sequence takes the key path, assembling its block from the
(empty) stored key columns, while still invoking the by-id `fillBlock`
instantiation selected at construction. -/
theorem getBlock_branches_on_empty_ids :
    (∀ (s : DictionaryBlockInputStream) (start length : Nat), s.ids = [] →
       s.getBlock start length = s.getBlockKeyPath start length) ∧
    (∀ (dict : DictionaryType) (mbs : Nat) (cn : List String) (start length : Nat),
       (DictionaryBlockInputStream.ofIds dict mbs [] cn).fillBlockFunction = .byId ∧
       (DictionaryBlockInputStream.ofIds dict mbs [] cn).key_columns = [] ∧
       (DictionaryBlockInputStream.ofIds dict mbs [] cn).getBlock start length
         = fillBlock .byId dict cn [] []) := by
  constructor
  · intro s start length h
    simp [DictionaryBlockInputStream.getBlock, h]
  · intro dict mbs cn start length
    exact ⟨rfl, rfl, by
      simp [DictionaryBlockInputStream.getBlock, DictionaryBlockInputStream.ofIds,
        DictionaryBlockInputStream.getBlockKeyPath]⟩

/-- Witness for C10 at a concrete input: the empty-id adapter takes the
key path. -/
theorem getBlock_branches_on_empty_ids_witness :
    (DictionaryBlockInputStream.ofIds demoIdDict 8 [] ["id"]).getBlock 0 0
      = (DictionaryBlockInputStream.ofIds demoIdDict 8 [] ["id"]).getBlockKeyPath 0 0 :=
  getBlock_branches_on_empty_ids.1 (DictionaryBlockInputStream.ofIds demoIdDict 8 [] ["id"]) 0 0 rfl

theorem map_name_filter {β : Type _} (g : β → String) (l : List β) (cn : List String) :
    (l.filter (fun a => decide (g a ∈ cn))).map g
      = (l.map g).filter (fun x => decide (x ∈ cn)) := by
  induction l with
  | nil => rfl
  | cons a t ih => by_cases h : g a ∈ cn <;> simp [h, ih]

theorem deser_eq (c : Column) (span : List Nat) (pos : Nat) :
    c.deserializeAndInsertFromArena span pos =
      match cellStep c.shape span pos with
      | some p' => .ok (c.pushCell span pos, p')
      | none => .error "Column: insufficient bytes in arena" := by
  cases c with
  | vec tag data =>
    rw [Column.deserializeAndInsertFromArena]
    simp only [Column.shape, cellStep, Column.pushCell]
    by_cases h : pos + byteWidth tag ≤ span.length <;> simp [h]
  | str data =>
    rw [Column.deserializeAndInsertFromArena]
    simp only [Column.shape, cellStep, Column.pushCell]
    by_cases h1 : pos + 8 ≤ span.length
    · by_cases h2 : pos + 8 + bytesLE ((span.drop pos).take 8) ≤ span.length <;>
        simp [h1, h2]
    · simp [h1]

theorem pushCell_emptied (c : Column) (span : List Nat) (pos : Nat) :
    (c.pushCell span pos).emptied = c.emptied := by
  cases c <;> simp [Column.pushCell, Column.emptied]

theorem pushCell_shape (c : Column) (span : List Nat) (pos : Nat) :
    (c.pushCell span pos).shape = c.shape := by
  cases c <;> simp [Column.pushCell, Column.shape]

theorem pushCell_size (c : Column) (span : List Nat) (pos : Nat) :
    (c.pushCell span pos).size = c.size + 1 := by
  cases c <;> simp [Column.pushCell, Column.size]

theorem pushSpan_emptied (cols : List ColumnWithTypeAndName) (span : List Nat) :
    ∀ pos, emptiedCols (pushSpan cols span pos) = emptiedCols cols := by
  induction cols with
  | nil => intro pos; simp [pushSpan]
  | cons c rest ih =>
    intro pos
    simp [pushSpan, emptiedCols, pushCell_emptied]
    have := ih ((cellStep c.column.shape span pos).getD 0)
    simpa [emptiedCols] using this

theorem colShapes_pushSpan (cols : List ColumnWithTypeAndName) (span : List Nat) :
    ∀ pos, colShapes (pushSpan cols span pos) = colShapes cols := by
  induction cols with
  | nil => intro pos; simp [pushSpan]
  | cons c rest ih =>
    intro pos
    simp [pushSpan, colShapes, pushCell_shape]
    have := ih ((cellStep c.column.shape span pos).getD 0)
    simpa [colShapes] using this

theorem pushSpan_sizes (cols : List ColumnWithTypeAndName) (span : List Nat) :
    ∀ pos, (pushSpan cols span pos).map (fun c => c.column.size)
      = cols.map (fun c => c.column.size + 1) := by
  induction cols with
  | nil => intro pos; simp [pushSpan]
  | cons c rest ih =>
    intro pos
    simp [pushSpan, pushCell_size]
    exact ih ((cellStep c.column.shape span pos).getD 0)

theorem spanStep_eq (cols : List ColumnWithTypeAndName) (span : List Nat) :
    ∀ pos, deserializeSpanStep cols span pos =
      match spanCursor (colShapes cols) span pos with
      | some p' => .ok (pushSpan cols span pos, p')
      | none => .error "Column: insufficient bytes in arena" := by
  induction cols with
  | nil => intro pos; simp [deserializeSpanStep, colShapes, spanCursor, pushSpan]
  | cons c rest ih =>
    intro pos
    rw [deserializeSpanStep, deser_eq]
    cases hstep : cellStep c.column.shape span pos with
    | some p1 =>
      simp only [hstep, colShapes, List.map_cons, spanCursor, pushSpan, Option.getD_some]
      rw [ih p1]
      simp only [colShapes]
      cases h2 : spanCursor (List.map (fun c => c.column.shape) rest) span p1 <;>
        simp [h2]
    | none =>
      simp [hstep, colShapes, spanCursor, pushSpan]

theorem fillKeySpan_eq (cols : List ColumnWithTypeAndName) (span : List Nat) :
    fillKeyColumnsSpan cols span =
      match spanCursor (colShapes cols) span 0 with
      | some p' =>
        if p' = span.length then .ok (pushSpan cols span 0)
        else .error "DictionaryBlockInputStream: unable to deserialize data"
      | none => .error "Column: insufficient bytes in arena" := by
  rw [fillKeyColumnsSpan, spanStep_eq]
  cases h : spanCursor (colShapes cols) span 0 <;> simp [h]

theorem span_ok_iff {cols cols' : List ColumnWithTypeAndName} {span : List Nat} :
    fillKeyColumnsSpan cols span = .ok cols' ↔
      (SpanDecodesExactly (colShapes cols) span ∧ cols' = pushSpan cols span 0) := by
  rw [fillKeySpan_eq]
  cases h : spanCursor (colShapes cols) span 0 with
  | some p' =>
    by_cases hp : p' = span.length
    · subst hp
      simp [SpanDecodesExactly, h, eq_comm]
    · simp [SpanDecodesExactly, h, hp]
  | none => simp [SpanDecodesExactly, h]

theorem span_ok_emptied {cols cols' : List ColumnWithTypeAndName} {span : List Nat}
    (h : fillKeyColumnsSpan cols span = .ok cols') :
    emptiedCols cols' = emptiedCols cols := by
  obtain ⟨-, h2⟩ := span_ok_iff.mp h
  rw [h2]
  exact pushSpan_emptied cols span 0

theorem loop_ok_iff {keys : List (List Nat)} :
    ∀ {ixs : List Nat} {cols cols' : List ColumnWithTypeAndName},
    fillKeyColumnsLoop keys cols ixs = .ok cols' ↔
      ((∀ i ∈ ixs, SpanDecodesExactly (colShapes cols) (keys.getD i [])) ∧
       cols' = pushSpans cols (ixs.map (fun i => keys.getD i []))) := by
  intro ixs
  induction ixs with
  | nil =>
    intro cols cols'
    rw [fillKeyColumnsLoop]
    simp [pushSpans, eq_comm]
  | cons i rest ih =>
    intro cols cols'
    rw [fillKeyColumnsLoop]
    cases hs : fillKeyColumnsSpan cols (keys.getD i []) with
    | ok mid =>
      obtain ⟨hex, hmid⟩ := span_ok_iff.mp hs
      rw [ih]
      subst hmid
      constructor
      · rintro ⟨hall, hcols⟩
        refine ⟨?_, ?_⟩
        · intro j hj
          rcases List.mem_cons.mp hj with hj | hj
          · subst hj; exact hex
          · have := hall j hj
            rwa [colShapes_pushSpan] at this
        · simpa [pushSpans] using hcols
      · rintro ⟨hall, hcols⟩
        refine ⟨?_, ?_⟩
        · intro j hj
          have := hall j (List.mem_cons_of_mem i hj)
          rwa [colShapes_pushSpan]
        · simpa [pushSpans] using hcols
    | error e =>
      constructor
      · intro h; exact absurd h (by simp)
      · rintro ⟨hall, -⟩
        have hex := hall i (List.mem_cons_self i rest)
        rw [fillKeySpan_eq, hex] at hs
        simp at hs

theorem pushSpans_emptied (spans : List (List Nat)) :
    ∀ cols, emptiedCols (pushSpans cols spans) = emptiedCols cols := by
  induction spans with
  | nil => intro cols; rfl
  | cons s rest ih =>
    intro cols
    rw [pushSpans]
    exact (ih _).trans (pushSpan_emptied cols s 0)

theorem colShapes_pushSpans (spans : List (List Nat)) :
    ∀ cols, colShapes (pushSpans cols spans) = colShapes cols := by
  induction spans with
  | nil => intro cols; rfl
  | cons s rest ih =>
    intro cols
    rw [pushSpans]
    exact (ih _).trans (colShapes_pushSpan cols s 0)

theorem pushSpans_sizes (spans : List (List Nat)) :
    ∀ cols, (pushSpans cols spans).map (fun c => c.column.size)
      = cols.map (fun c => c.column.size + spans.length) := by
  induction spans with
  | nil => intro cols; simp [pushSpans]
  | cons s rest ih =>
    intro cols
    rw [pushSpans, ih]
    calc List.map (fun c => c.column.size + rest.length) (pushSpan cols s 0)
        = (List.map (fun c => c.column.size) (pushSpan cols s 0)).map
            (fun n => n + rest.length) := by simp [List.map_map]
      _ = (cols.map (fun c => c.column.size + 1)).map (fun n => n + rest.length) := by
            rw [pushSpan_sizes]
      _ = cols.map (fun c => c.column.size + (s :: rest).length) := by
            simp only [List.map_map, List.length_cons]
            exact List.map_congr_left (fun c _ => by simp; omega)

theorem pushSpans_append (a b : List (List Nat)) :
    ∀ cols, pushSpans cols (a ++ b) = pushSpans (pushSpans cols a) b := by
  induction a with
  | nil => intro cols; rfl
  | cons s rest ih => intro cols; rw [List.cons_append, pushSpans, pushSpans, ih]

theorem loop_ok_emptied {ixs : List Nat} {keys : List (List Nat)}
    {cols cols' : List ColumnWithTypeAndName}
    (h : fillKeyColumnsLoop keys cols ixs = .ok cols') :
    emptiedCols cols' = emptiedCols cols := by
  obtain ⟨-, h2⟩ := loop_ok_iff.mp h
  subst h2
  exact pushSpans_emptied _ cols

theorem alloc_names (l : List DictionaryAttribute) :
    (fillKeyColumnsAlloc l).map (fun c => c.name) = l.map (fun a => a.name) := by
  induction l with
  | nil => rfl
  | cons a t ih =>
    obtain ⟨nm, ut, ty⟩ := a
    cases ut <;> simpa [fillKeyColumnsAlloc] using ih

theorem alloc_types (l : List DictionaryAttribute) :
    (fillKeyColumnsAlloc l).map (fun c => c.type) = l.map (fun a => a.type) := by
  induction l with
  | nil => rfl
  | cons a t ih =>
    obtain ⟨nm, ut, ty⟩ := a
    cases ut <;> simpa [fillKeyColumnsAlloc] using ih

theorem emptiedCols_map_name (cols : List ColumnWithTypeAndName) :
    (emptiedCols cols).map (fun c => c.name) = cols.map (fun c => c.name) := by
  simp [emptiedCols, List.map_map]

theorem emptiedCols_map_type (cols : List ColumnWithTypeAndName) :
    (emptiedCols cols).map (fun c => c.type) = cols.map (fun c => c.type) := by
  simp [emptiedCols, List.map_map]

theorem fillKeyColumns_ok_names {keys : List (List Nat)} {start size : Nat}
    {st : DictionaryStructure} {cols : List ColumnWithTypeAndName}
    (h : fillKeyColumns keys start size st = .ok cols) :
    cols.map (fun c => c.name) = (st.key.getD []).map (fun a => a.name) := by
  rw [fillKeyColumns] at h
  have h1 := loop_ok_emptied h
  calc cols.map (fun c => c.name)
      = (emptiedCols cols).map (fun c => c.name) := (emptiedCols_map_name cols).symm
    _ = (emptiedCols (fillKeyColumnsAlloc (st.key.getD []))).map (fun c => c.name) := by rw [h1]
    _ = (fillKeyColumnsAlloc (st.key.getD [])).map (fun c => c.name) := emptiedCols_map_name _
    _ = (st.key.getD []).map (fun a => a.name) := alloc_names _

theorem ofKeys_ok_fields {dict : DictionaryType} {mbs : Nat}
    {spans : List (List Nat)} {cn : List String} {s : DictionaryBlockInputStream}
    (h : DictionaryBlockInputStream.ofKeys dict mbs spans cn = .ok s) :
    s.dictionary = dict ∧ s.column_names = cn ∧ s.ids = [] ∧
    s.fillBlockFunction = .byKey ∧
    fillKeyColumns spans 0 spans.length dict.getStructure = .ok s.key_columns := by
  rw [DictionaryBlockInputStream.ofKeys] at h
  cases h1 : fillKeyColumns spans 0 spans.length dict.getStructure with
  | ok kc =>
    rw [h1] at h
    have := Except.ok.inj h
    subst this
    exact ⟨rfl, rfl, rfl, rfl, rfl⟩
  | error e => rw [h1] at h; exact absurd h (by simp)

theorem fillBlock_map_name (mode : GetterMode) (dict : DictionaryType)
    (cn : List String) (ids : List Nat) (keys : List ColumnWithTypeAndName) :
    (fillBlock mode dict cn ids keys).columns.map (fun c => c.name)
      = (match dict.getStructure.id with
         | some a => if a.name ∈ cn then [a.name] else []
         | none => []) ++
        (keys.map (fun k => k.name)).filter (fun x => decide (x ∈ cn)) ++
        (dict.getStructure.attributes.map (fun a => a.name)).filter
          (fun x => decide (x ∈ cn)) := by
  simp only [fillBlock, List.map_append]
  congr 1
  · congr 1
    · cases h : dict.getStructure.id with
      | some a => by_cases hm : a.name ∈ cn <;> simp [hm]
      | none => simp
    · exact map_name_filter (fun k => k.name) keys cn
  · rw [List.map_map]
    exact map_name_filter (fun a => a.name) dict.getStructure.attributes cn

theorem ofIds_getBlock_eq (dict : DictionaryType) (mbs : Nat) (ids : List Nat)
    (cn : List String) (start len : Nat) :
    (DictionaryBlockInputStream.ofIds dict mbs ids cn).getBlock start len
      = fillBlock .byId dict cn ((ids.drop start).take len) [] := by
  by_cases h : ids.isEmpty
  · have hnil : ids = [] := List.isEmpty_iff.mp h
    subst hnil
    simp [DictionaryBlockInputStream.getBlock, DictionaryBlockInputStream.ofIds,
      DictionaryBlockInputStream.getBlockKeyPath]
  · simp [DictionaryBlockInputStream.getBlock, DictionaryBlockInputStream.ofIds,
      DictionaryBlockInputStream.getBlockIdPath, h]

theorem ofKeys_getBlock_eq {dict : DictionaryType} {mbs : Nat}
    {spans : List (List Nat)} {cn : List String} {s : DictionaryBlockInputStream}
    (hok : DictionaryBlockInputStream.ofKeys dict mbs spans cn = .ok s)
    (start len : Nat) :
    s.getBlock start len
      = fillBlock .byKey dict cn []
          (s.key_columns.map (fun kc =>
            ⟨kc.column.cut start len, kc.type, kc.name⟩)) := by
  obtain ⟨hdict, hcn, hids, hfun, -⟩ := ofKeys_ok_fields hok
  have hempty : s.ids.isEmpty = true := by rw [hids]; rfl
  rw [DictionaryBlockInputStream.getBlock, if_pos hempty,
    DictionaryBlockInputStream.getBlockKeyPath, hdict, hcn, hfun]

theorem fillBlock_names_congr {cn cn2 : List String}
    (mode : GetterMode) (dict : DictionaryType)
    (ids : List Nat) (keys : List ColumnWithTypeAndName)
    (hmem : ∀ x : String, x ∈ cn ↔ x ∈ cn2) :
    fillBlock mode dict cn ids keys = fillBlock mode dict cn2 ids keys := by
  simp only [fillBlock]
  congr 1
  congr 1
  · congr 1
    · cases h : dict.getStructure.id with
      | some a => exact if_congr (hmem a.name) rfl rfl
      | none => rfl
    · exact List.filter_congr (fun x _ => decide_eq_decide.mpr (hmem x.name))
  · rw [List.filter_congr (fun (x : DictionaryAttribute) _ => decide_eq_decide.mpr (hmem x.name))]

/-- Claim C1: the output column order of every produced block is
exactly — the id column (when the structure declares a surrogate id
whose name is requested), then the requested key sub-field columns in
structure order, then the requested attribute columns in structure
order; and the produced block depends on the requested-name list only
through membership, so the order in which the caller listed the names
changes nothing. -/
theorem output_column_order
    (mode : GetterMode) (dict : DictionaryType) (cn cn2 : List String)
    (ids : List Nat) (keys : List ColumnWithTypeAndName)
    (mbs start len : Nat) (spans : List (List Nat)) (s : DictionaryBlockInputStream)
    (hok : DictionaryBlockInputStream.ofKeys dict mbs spans cn = .ok s)
    (hmem : ∀ x : String, x ∈ cn ↔ x ∈ cn2) :
    ((fillBlock mode dict cn ids keys).columns.map (fun c => c.name)
       = (match dict.getStructure.id with
          | some a => if a.name ∈ cn then [a.name] else []
          | none => []) ++
         (keys.map (fun k => k.name)).filter (fun x => decide (x ∈ cn)) ++
         (dict.getStructure.attributes.map (fun a => a.name)).filter
           (fun x => decide (x ∈ cn))) ∧
    ((s.getBlock start len).columns.map (fun c => c.name)
       = (match dict.getStructure.id with
          | some a => if a.name ∈ cn then [a.name] else []
          | none => []) ++
         ((dict.getStructure.key.getD []).map (fun a => a.name)).filter
           (fun x => decide (x ∈ cn)) ++
         (dict.getStructure.attributes.map (fun a => a.name)).filter
           (fun x => decide (x ∈ cn))) ∧
    fillBlock mode dict cn ids keys = fillBlock mode dict cn2 ids keys := by
  obtain ⟨-, -, -, -, hkc⟩ := ofKeys_ok_fields hok
  refine ⟨fillBlock_map_name mode dict cn ids keys, ?_,
    fillBlock_names_congr mode dict ids keys hmem⟩
  rw [ofKeys_getBlock_eq hok, fillBlock_map_name]
  have hnames : (s.key_columns.map (fun kc =>
      (⟨kc.column.cut start len, kc.type, kc.name⟩ : ColumnWithTypeAndName))).map
        (fun k => k.name)
      = (dict.getStructure.key.getD []).map (fun a => a.name) := by
    rw [List.map_map]
    exact fillKeyColumns_ok_names hkc
  rw [hnames]

/-- Witness for C1 at a concrete composite-key adapter: requested
names listed as x-then-k1 still produce the block in structure order
k1-then-x. -/
theorem output_column_order_witness :
    ((DictionaryBlockInputStream.mk demoKeyDict ["x", "k1"] []
        [⟨.vec .uint8 [1, 2], "UInt8", "k1"⟩] .byKey).getBlock 0 2).columns.map
        (fun c => c.name)
      = ["k1", "x"] := by
  have h := output_column_order .byKey demoKeyDict ["x", "k1"] ["k1", "x"]
    [] [] 8 0 2 [[1], [2]]
    (DictionaryBlockInputStream.mk demoKeyDict ["x", "k1"] []
      [⟨.vec .uint8 [1, 2], "UInt8", "k1"⟩] .byKey)
    rfl
    (by intro x; simp [List.mem_cons]; tauto)
  exact h.2.1.trans (by decide)

theorem fillBlock_names_mem {mode : GetterMode} {dict : DictionaryType}
    {cn : List String} {ids : List Nat} {keys : List ColumnWithTypeAndName}
    {c : ColumnWithTypeAndName}
    (h : c ∈ (fillBlock mode dict cn ids keys).columns) :
    c.name ∈ cn ∧
    (c.name ∈ (match dict.getStructure.id with
               | some a => [a.name]
               | none => []) ∨
     c.name ∈ keys.map (fun k => k.name) ∨
     c.name ∈ dict.getStructure.attributes.map (fun a => a.name)) := by
  have hm := List.mem_map_of_mem (fun c => c.name) h
  rw [fillBlock_map_name] at hm
  rcases List.mem_append.mp hm with hm | hm
  · rcases List.mem_append.mp hm with hm | hm
    · cases hid : dict.getStructure.id with
      | none => rw [hid] at hm; simp at hm
      | some a =>
        rw [hid] at hm
        by_cases hin : a.name ∈ cn
        · simp [hin] at hm
          exact ⟨hm ▸ hin, Or.inl (by simp [hm])⟩
        · simp [hin] at hm
    · obtain ⟨hmem, hdec⟩ := List.mem_filter.mp hm
      exact ⟨of_decide_eq_true hdec, Or.inr (Or.inl hmem)⟩
  · obtain ⟨hmem, hdec⟩ := List.mem_filter.mp hm
    exact ⟨of_decide_eq_true hdec, Or.inr (Or.inr hmem)⟩

/-- Claim C7: a requested name that is neither the structure's id name
nor a key sub-field name nor an attribute name never appears in a
produced block — every emitted column's name is both requested and
declared by the structure — and requesting an empty name set produces
a block with zero columns, for adapters of either constructor. -/
theorem unknown_names_never_appear :
    (∀ (dict : DictionaryType) (mbs : Nat) (ids : List Nat) (cn : List String)
       (start len : Nat) (c : ColumnWithTypeAndName),
       c ∈ ((DictionaryBlockInputStream.ofIds dict mbs ids cn).getBlock start len).columns →
       c.name ∈ cn ∧ c.name ∈ structureNames dict.getStructure) ∧
    (∀ (dict : DictionaryType) (mbs : Nat) (spans : List (List Nat)) (cn : List String)
       (s : DictionaryBlockInputStream) (start len : Nat) (c : ColumnWithTypeAndName),
       DictionaryBlockInputStream.ofKeys dict mbs spans cn = .ok s →
       c ∈ (s.getBlock start len).columns →
       c.name ∈ cn ∧ c.name ∈ structureNames dict.getStructure) ∧
    (∀ (dict : DictionaryType) (mbs : Nat) (ids : List Nat) (start len : Nat),
       ((DictionaryBlockInputStream.ofIds dict mbs ids []).getBlock start len).columns = []) ∧
    (∀ (dict : DictionaryType) (mbs : Nat) (spans : List (List Nat))
       (s : DictionaryBlockInputStream) (start len : Nat),
       DictionaryBlockInputStream.ofKeys dict mbs spans [] = .ok s →
       (s.getBlock start len).columns = []) := by
  have hempty : ∀ (mode : GetterMode) (dict : DictionaryType) (ids : List Nat)
      (keys : List ColumnWithTypeAndName),
      (fillBlock mode dict [] ids keys).columns = [] := by
    intro mode dict ids keys
    have hmn := fillBlock_map_name mode dict [] ids keys
    have hnil : (match dict.getStructure.id with
        | some a => if a.name ∈ ([] : List String) then [a.name] else []
        | none => []) = ([] : List String) := by
      cases dict.getStructure.id <;> simp
    rw [hnil] at hmn
    simp at hmn
    exact hmn
  have hidname : ∀ (st : DictionaryStructure) (nm : String),
      (nm ∈ (match st.id with | some a => [a.name] | none => []) ∨
       nm ∈ (st.key.getD []).map (fun a => a.name) ∨
       nm ∈ st.attributes.map (fun a => a.name)) →
      nm ∈ structureNames st := by
    intro st nm h
    rw [structureNames, List.append_assoc]
    rcases h with h | h | h
    · exact List.mem_append.mpr (Or.inl h)
    · exact List.mem_append.mpr (Or.inr (List.mem_append.mpr (Or.inl h)))
    · exact List.mem_append.mpr (Or.inr (List.mem_append.mpr (Or.inr h)))
  refine ⟨?_, ?_, ?_, ?_⟩
  · intro dict mbs ids cn start len c hc
    rw [ofIds_getBlock_eq] at hc
    obtain ⟨h1, h2⟩ := fillBlock_names_mem hc
    refine ⟨h1, hidname _ _ ?_⟩
    rcases h2 with h2 | h2 | h2
    · exact Or.inl h2
    · simp at h2
    · exact Or.inr (Or.inr h2)
  · intro dict mbs spans cn s start len c hok hc
    obtain ⟨-, -, -, -, hkc⟩ := ofKeys_ok_fields hok
    rw [ofKeys_getBlock_eq hok] at hc
    obtain ⟨h1, h2⟩ := fillBlock_names_mem hc
    refine ⟨h1, hidname _ _ ?_⟩
    rcases h2 with h2 | h2 | h2
    · exact Or.inl h2
    · refine Or.inr (Or.inl ?_)
      have hn := fillKeyColumns_ok_names hkc
      rw [← hn]
      obtain ⟨k, hk, hkeq⟩ := List.mem_map.mp h2
      obtain ⟨kc, hkc2, rfl⟩ := List.mem_map.mp hk
      rw [← hkeq]
      exact List.mem_map_of_mem (fun c => c.name) hkc2
    · exact Or.inr (Or.inr h2)
  · intro dict mbs ids start len
    rw [ofIds_getBlock_eq]
    exact hempty _ _ _ _
  · intro dict mbs spans s start len hok
    rw [ofKeys_getBlock_eq hok]
    exact hempty _ _ _ _

theorem ofIds_getBlock_idColumn {dict : DictionaryType} {a : DictionaryAttribute}
    {cn : List String} (mbs : Nat) (ids : List Nat) (start len : Nat)
    (hid : dict.getStructure.id = some a) (hreq : a.name ∈ cn) :
    ((DictionaryBlockInputStream.ofIds dict mbs ids cn).getBlock start len).findColumn
        a.name
      = some (.vec .uint64 ((ids.drop start).take len)) := by
  rw [ofIds_getBlock_eq]
  simp [fillBlock, hid, hreq, Block.findColumn, getColumnFromIds]

theorem windows_flatten (ids : List Nat) :
    ∀ (lens : List Nat) (start : Nat),
      ((windowsOf lens start).map (fun w => (ids.drop w.1).take w.2)).flatten
        = (ids.drop start).take lens.sum := by
  intro lens
  induction lens with
  | nil => intro start; simp [windowsOf]
  | cons l ls ih =>
    intro start
    simp only [windowsOf, List.map_cons, List.flatten_cons, List.sum_cons]
    rw [ih (start + l), take_add_eq, List.drop_drop]

/-- Claim C3: for an adapter in surrogate-id mode over N ids, any
sequence of window calls partitioning [0, N) in increasing order
produces id columns whose concatenation is the original id sequence in
order, each window's id column being the unsigned 64-bit widening of
the corresponding id slice. -/
theorem id_windows_concatenate
    (dict : DictionaryType) (mbs : Nat) (ids : List Nat) (cn : List String)
    (a : DictionaryAttribute) (lens : List Nat)
    (hid : dict.getStructure.id = some a) (hreq : a.name ∈ cn)
    (hsum : lens.sum = ids.length) :
    ((windowsOf lens 0).map (fun w =>
        ((((DictionaryBlockInputStream.ofIds dict mbs ids cn).getBlock w.1 w.2).findColumn
            a.name).map Column.vecData).getD [])).flatten = ids ∧
    (∀ w ∈ windowsOf lens 0,
       ((DictionaryBlockInputStream.ofIds dict mbs ids cn).getBlock w.1 w.2).findColumn
           a.name
         = some (.vec .uint64 ((ids.drop w.1).take w.2))) := by
  constructor
  · have hcong : (windowsOf lens 0).map (fun w =>
        ((((DictionaryBlockInputStream.ofIds dict mbs ids cn).getBlock w.1 w.2).findColumn
            a.name).map Column.vecData).getD [])
        = (windowsOf lens 0).map (fun w => (ids.drop w.1).take w.2) := by
      refine List.map_congr_left ?_
      intro w _
      rw [ofIds_getBlock_idColumn mbs ids w.1 w.2 hid hreq]
      simp [Column.vecData]
    rw [hcong, windows_flatten ids lens 0, hsum]
    simp
  · intro w _
    exact ofIds_getBlock_idColumn mbs ids w.1 w.2 hid hreq

/-- Witness for C3 at a concrete input: ids [10, 20, 30] split into
windows of lengths [2, 1] concatenate back to [10, 20, 30]. -/
theorem id_windows_concatenate_witness :
    ((windowsOf [2, 1] 0).map (fun w =>
        ((((DictionaryBlockInputStream.ofIds demoIdDict 8 [10, 20, 30] ["id"]).getBlock
              w.1 w.2).findColumn demoIdAttr.name).map Column.vecData).getD [])).flatten
      = [10, 20, 30] :=
  (id_windows_concatenate demoIdDict 8 [10, 20, 30] ["id"] demoIdAttr [2, 1]
    rfl (by decide) (by decide)).1

theorem cut_size {c : Column} {start len : Nat} (h : start + len ≤ c.size) :
    (c.cut start len).size = len := by
  cases c <;> simp [Column.cut, Column.size] at h ⊢ <;> omega

theorem alloc_sizes (l : List DictionaryAttribute) :
    ∀ c ∈ fillKeyColumnsAlloc l, c.column.size = 0 := by
  intro c hc
  rw [fillKeyColumnsAlloc] at hc
  obtain ⟨a, -, haeq⟩ := List.mem_map.mp hc
  rw [← haeq]
  obtain ⟨nm, ut, ty⟩ := a
  cases ut <;> simp [Column.size]

theorem pushSpan_length (cols : List ColumnWithTypeAndName) (span : List Nat) :
    ∀ pos, (pushSpan cols span pos).length = cols.length := by
  induction cols with
  | nil => intro pos; simp [pushSpan]
  | cons c rest ih =>
    intro pos
    simp [pushSpan]
    exact ih ((cellStep c.column.shape span pos).getD 0)

theorem pushSpans_length (spans : List (List Nat)) :
    ∀ cols : List ColumnWithTypeAndName, (pushSpans cols spans).length = cols.length := by
  induction spans with
  | nil => intro cols; rfl
  | cons s rest ih =>
    intro cols
    rw [pushSpans]
    exact (ih _).trans (pushSpan_length cols s 0)

theorem fillKeyColumns_ok_sizes {keys : List (List Nat)}
    {st : DictionaryStructure} {cols : List ColumnWithTypeAndName}
    (h : fillKeyColumns keys 0 keys.length st = .ok cols) :
    cols.length = (st.key.getD []).length ∧
    ∀ c ∈ cols, c.column.size = keys.length := by
  rw [fillKeyColumns] at h
  obtain ⟨-, h2⟩ := loop_ok_iff.mp h
  subst h2
  constructor
  · rw [pushSpans_length]
    simp [fillKeyColumnsAlloc]
  · intro c hc
    have hmem := List.mem_map_of_mem (fun c => c.column.size) hc
    rw [pushSpans_sizes] at hmem
    obtain ⟨a, ha, haeq⟩ := List.mem_map.mp hmem
    rw [alloc_sizes _ a ha] at haeq
    simpa using haeq.symm

theorem getColumnForAttribute_size_byId {dict : DictionaryType}
    (hnum : ∀ tag name ids out, (dict.getById tag name ids out).length = out.length)
    (hstr : ∀ name ids, (dict.getStringById name ids []).length = ids.length)
    (ids : List Nat) (dts : List String) (attr : DictionaryAttribute) :
    (getColumnForAttribute .byId ids [] dts attr dict).size = ids.length := by
  obtain ⟨nm, ut, ty⟩ := attr
  cases ut <;>
    simp [getColumnForAttribute, getColumnFromAttribute,
      getColumnFromStringAttribute, Column.size, hnum, hstr]

theorem getColumnForAttribute_size_byKey {dict : DictionaryType}
    (hnum : ∀ tag name keys dts out, (dict.getByKey tag name keys dts out).length = out.length)
    (hstr : ∀ name keys dts k ks, keys = k :: ks →
      (dict.getStringByKey name keys dts []).length = Column.size k)
    (ids : List Nat) (k : Column) (ks : List Column) (dts : List String)
    (attr : DictionaryAttribute) :
    (getColumnForAttribute .byKey ids (k :: ks) dts attr dict).size = k.size := by
  obtain ⟨nm, ut, ty⟩ := attr
  cases ut <;>
    simp [getColumnForAttribute, getColumnFromAttribute,
      getColumnFromStringAttribute, Column.size, hnum, hstr _ _ _ k ks rfl]

theorem fillBlock_sizes_byId {dict : DictionaryType}
    (hnum : ∀ tag name ids out, (dict.getById tag name ids out).length = out.length)
    (hstr : ∀ name ids, (dict.getStringById name ids []).length = ids.length)
    (cn : List String) (ids : List Nat) :
    ∀ c ∈ (fillBlock .byId dict cn ids []).columns, c.column.size = ids.length := by
  intro c hc
  simp only [fillBlock] at hc
  rcases List.mem_append.mp hc with hc | hc
  · rcases List.mem_append.mp hc with hc | hc
    · cases hid : dict.getStructure.id with
      | none => rw [hid] at hc; simp at hc
      | some a =>
        rw [hid] at hc
        by_cases hin : a.name ∈ cn
        · simp [hin] at hc
          rw [hc]
          simp [getColumnFromIds, Column.size]
        · simp [hin] at hc
    · simp at hc
  · obtain ⟨attr, -, haeq⟩ := List.mem_map.mp hc
    have := getColumnForAttribute_size_byId hnum hstr ids
      (List.map (fun k => k.type) ([] : List ColumnWithTypeAndName)) attr
    rw [← haeq]
    simpa using this

theorem fillBlock_sizes_byKey {dict : DictionaryType} {n : Nat}
    (hnum : ∀ tag name keys dts out, (dict.getByKey tag name keys dts out).length = out.length)
    (hstr : ∀ name keys dts k ks, keys = k :: ks →
      (dict.getStringByKey name keys dts []).length = Column.size k)
    (cn : List String) (k : ColumnWithTypeAndName) (ks : List ColumnWithTypeAndName)
    (hid_none : dict.getStructure.id = none)
    (hsizes : ∀ kc ∈ k :: ks, kc.column.size = n) :
    ∀ c ∈ (fillBlock .byKey dict cn [] (k :: ks)).columns, c.column.size = n := by
  intro c hc
  simp only [fillBlock, hid_none] at hc
  rcases List.mem_append.mp hc with hc | hc
  · rcases List.mem_append.mp hc with hc | hc
    · simp at hc
    · exact hsizes c (List.mem_of_mem_filter hc)
  · obtain ⟨attr, -, haeq⟩ := List.mem_map.mp hc
    rw [← haeq]
    show (getColumnForAttribute .byKey []
      ((k :: ks).map (fun kc => kc.column)) ((k :: ks).map (fun kc => kc.type))
      attr dict).size = n
    rw [List.map_cons, List.map_cons,
      getColumnForAttribute_size_byKey hnum hstr [] k.column
        (ks.map (fun kc => kc.column)) (k.type :: ks.map (fun kc => kc.type)) attr]
    exact hsizes k (List.mem_cons_self k ks)

/-- Claim C5: under the precondition `start + length ≤ total row
count`, every column of the block produced by a window call has
exactly `length` rows — in id mode outright, in composite-key mode
given the structure invariants (no surrogate id, at least one key
sub-field) and the external dictionary's bulk-lookup contract. -/
theorem produced_block_column_sizes
    (dict : DictionaryType) (mbs start len : Nat) (cn : List String)
    (hwb : dict.WellBehaved) :
    (∀ ids : List Nat, start + len ≤ ids.length →
       ∀ c ∈ ((DictionaryBlockInputStream.ofIds dict mbs ids cn).getBlock start len).columns,
         c.column.size = len) ∧
    (∀ (spans : List (List Nat)) (s : DictionaryBlockInputStream),
       DictionaryBlockInputStream.ofKeys dict mbs spans cn = .ok s →
       start + len ≤ spans.length →
       dict.getStructure.id = none →
       dict.getStructure.key.getD [] ≠ [] →
       ∀ c ∈ (s.getBlock start len).columns, c.column.size = len) := by
  obtain ⟨hnum1, hstr1, hnum2, hstr2⟩ := hwb
  constructor
  · intro ids hpre c hc
    rw [ofIds_getBlock_eq] at hc
    have hlen : ((ids.drop start).take len).length = len := by
      simp
      omega
    rw [← hlen]
    exact fillBlock_sizes_byId hnum1 hstr1 cn _ c hc
  · intro spans s hok hpre hidn hkne
    obtain ⟨-, -, -, -, hkc⟩ := ofKeys_ok_fields hok
    obtain ⟨hklen, hksz⟩ := fillKeyColumns_ok_sizes hkc
    have hkcols : s.key_columns ≠ [] := by
      intro hnil
      rw [hnil] at hklen
      simp at hklen
      exact hkne (List.eq_nil_of_length_eq_zero hklen.symm)
    intro c hc
    rw [ofKeys_getBlock_eq hok] at hc
    cases hkey : s.key_columns with
    | nil => exact absurd hkey hkcols
    | cons kc0 krest =>
      rw [hkey, List.map_cons] at hc
      refine fillBlock_sizes_byKey hnum2 hstr2 cn _ _ hidn ?_ c hc
      intro kc hkc2
      rcases List.mem_cons.mp hkc2 with hkc2 | hkc2
      · rw [hkc2]
        have hsz : kc0.column.size = spans.length :=
          hksz kc0 (hkey ▸ List.mem_cons_self kc0 krest)
        exact cut_size (by rw [hsz]; omega)
      · obtain ⟨kc1, hkc1, rfl⟩ := List.mem_map.mp hkc2
        have hsz : kc1.column.size = spans.length :=
          hksz kc1 (hkey ▸ List.mem_cons_of_mem kc0 hkc1)
        exact cut_size (by rw [hsz]; omega)

theorem appendData_emptied_right (c : Column) : c.appendData c.emptied = c := by
  cases c <;> simp [Column.appendData, Column.emptied]

theorem zipAppend_emptied (cols : List ColumnWithTypeAndName) :
    zipAppendCols cols (emptiedCols cols) = cols := by
  induction cols with
  | nil => rfl
  | cons c rest ih =>
    have ih2 : zipAppendCols rest
        (List.map (fun x : ColumnWithTypeAndName =>
          ({ column := x.column.emptied, type := x.type, name := x.name } :
            ColumnWithTypeAndName)) rest)
        = rest := ih
    simp only [emptiedCols, List.map_cons, zipAppendCols,
      appendData_emptied_right, ih2]

theorem shape_emptied (c : Column) : c.emptied.shape = c.shape := by
  cases c <;> simp [Column.emptied, Column.shape]

theorem colShapes_emptiedCols (cols : List ColumnWithTypeAndName) :
    colShapes (emptiedCols cols) = colShapes cols := by
  induction cols with
  | nil => rfl
  | cons c rest ih =>
    simp only [colShapes, emptiedCols, List.map_cons, shape_emptied]
    exact congrArg (fun t => c.column.shape :: t) ih

theorem emptied_shape_eq {a b : Column} (h : a.emptied = b.emptied) :
    a.shape = b.shape := by
  cases a <;> cases b <;> simp_all [Column.emptied, Column.shape]

theorem appendData_shape {a b : Column} (h : a.shape = b.shape) :
    (a.appendData b).shape = b.shape := by
  cases a <;> cases b <;> simp_all [Column.appendData, Column.shape]

theorem appendData_pushCell {a b : Column} (h : a.shape = b.shape)
    (span : List Nat) (pos : Nat) :
    (a.appendData b).pushCell span pos = a.appendData (b.pushCell span pos) := by
  cases a <;> cases b <;>
    simp_all [Column.appendData, Column.pushCell, Column.shape]

theorem pushSpan_zipAppend :
    ∀ (cols X : List ColumnWithTypeAndName), colShapes X = colShapes cols →
    ∀ (span : List Nat) (pos : Nat),
      pushSpan (zipAppendCols cols X) span pos
        = zipAppendCols cols (pushSpan X span pos) := by
  intro cols
  induction cols with
  | nil =>
    intro X hsh span pos
    have : X = [] := by simpa [colShapes] using hsh
    subst this
    simp [zipAppendCols, pushSpan]
  | cons c rest ih =>
    intro X hsh span pos
    cases X with
    | nil => simp [colShapes] at hsh
    | cons x xs =>
      simp only [colShapes, List.map_cons, List.cons.injEq] at hsh
      obtain ⟨hx, hxs⟩ := hsh
      simp only [zipAppendCols, pushSpan]
      rw [appendData_pushCell hx.symm, appendData_shape hx.symm,
        ih xs hxs span ((cellStep x.column.shape span pos).getD 0)]

theorem pushSpans_zipAppend :
    ∀ (spans : List (List Nat)) (cols X : List ColumnWithTypeAndName),
      colShapes X = colShapes cols →
      pushSpans (zipAppendCols cols X) spans
        = zipAppendCols cols (pushSpans X spans) := by
  intro spans
  induction spans with
  | nil => intro cols X hsh; rfl
  | cons s rest ih =>
    intro cols X hsh
    rw [pushSpans, pushSpan_zipAppend cols X hsh s 0, ih, pushSpans]
    rw [colShapes_pushSpan]
    exact hsh

theorem pushSpans_decompose (spans : List (List Nat))
    (cols : List ColumnWithTypeAndName) :
    pushSpans cols spans
      = zipAppendCols cols (pushSpans (emptiedCols cols) spans) := by
  conv_lhs => rw [← zipAppend_emptied cols]
  exact pushSpans_zipAppend spans cols (emptiedCols cols) (colShapes_emptiedCols cols)

theorem alloc_emptied (l : List DictionaryAttribute) :
    emptiedCols (fillKeyColumnsAlloc l) = fillKeyColumnsAlloc l := by
  induction l with
  | nil => rfl
  | cons a t ih =>
    obtain ⟨nm, ut, ty⟩ := a
    cases ut <;>
      simpa [fillKeyColumnsAlloc, emptiedCols, Column.emptied] using ih

theorem cut_appendData3 {a b c : Column} {start len : Nat}
    (hab : a.shape = b.shape) (hbc : b.shape = c.shape)
    (ha : a.size = start) (hb : b.size = len) :
    (a.appendData (b.appendData c)).cut start len = b := by
  cases a with
  | vec ta da =>
    cases b with
    | vec tb db =>
      cases c with
      | vec tc dc =>
        simp only [Column.shape, ColumnShape.vec.injEq] at hab
        subst hab
        simp only [Column.size] at ha hb
        simp only [Column.appendData, Column.cut]
        rw [List.drop_left' ha, List.take_left' hb]
      | str dc => simp [Column.shape] at hbc
    | str db => simp [Column.shape] at hab
  | str da =>
    cases b with
    | vec tb db => simp [Column.shape] at hab
    | str db =>
      cases c with
      | vec tc dc => simp [Column.shape] at hbc
      | str dc =>
        simp only [Column.size] at ha hb
        simp only [Column.appendData, Column.cut]
        rw [List.drop_left' ha, List.take_left' hb]

theorem cutCols3 {start len : Nat} :
    ∀ (A B C : List ColumnWithTypeAndName),
      emptiedCols A = emptiedCols B → emptiedCols B = emptiedCols C →
      (∀ x ∈ A, x.column.size = start) → (∀ x ∈ B, x.column.size = len) →
      (zipAppendCols A (zipAppendCols B C)).map
        (fun c => (⟨c.column.cut start len, c.type, c.name⟩ : ColumnWithTypeAndName))
        = B := by
  intro A
  induction A with
  | nil =>
    intro B C hab hbc hA hB
    have : B = [] := by
      have := hab.symm
      simpa [emptiedCols] using this
    subst this
    cases C <;> simp [zipAppendCols]
  | cons a as ih =>
    intro B C hab hbc hA hB
    cases B with
    | nil => simp [emptiedCols] at hab
    | cons b bs =>
      cases C with
      | nil => simp [emptiedCols] at hbc
      | cons c cs =>
        simp only [emptiedCols, List.map_cons, List.cons.injEq,
          ColumnWithTypeAndName.mk.injEq] at hab hbc
        obtain ⟨⟨habe, habt, habn⟩, hab2⟩ := hab
        obtain ⟨⟨hbce, hbct, hbcn⟩, hbc2⟩ := hbc
        simp only [zipAppendCols, List.map_cons]
        congr 1
        · rw [cut_appendData3 (emptied_shape_eq habe) (emptied_shape_eq hbce)
            (hA a (List.mem_cons_self a as)) (hB b (List.mem_cons_self b bs)),
            habt, habn]
        · exact ih bs cs hab2 hbc2
            (fun x hx => hA x (List.mem_cons_of_mem a hx))
            (fun x hx => hB x (List.mem_cons_of_mem b hx))

theorem pushSpans_sizes_of {cols : List ColumnWithTypeAndName} {n : Nat}
    (h0 : ∀ c ∈ cols, c.column.size = n) (spans : List (List Nat)) :
    ∀ c ∈ pushSpans cols spans, c.column.size = n + spans.length := by
  intro c hc
  have hmem := List.mem_map_of_mem (fun c => c.column.size) hc
  rw [pushSpans_sizes] at hmem
  obtain ⟨a, ha, haeq⟩ := List.mem_map.mp hmem
  rw [h0 a ha] at haeq
  exact haeq.symm

theorem map_range'_getD (keys : List (List Nat)) :
    ∀ (n start : Nat), start + n ≤ keys.length →
      (List.range' start n).map (fun i => keys.getD i [])
        = (keys.drop start).take n := by
  intro n
  induction n with
  | zero => intro start h; simp
  | succ n ih =>
    intro start h
    have hlt : start < keys.length := by omega
    rw [List.range'_succ, List.map_cons, ih (start + 1) (by omega),
      List.drop_eq_getElem_cons hlt, List.take_succ_cons]
    congr 1
    exact List.getD_eq_getElem _ _ hlt

/-- Claim C4: in composite-key mode the full span sequence is decoded
into typed key columns exactly once, at construction; every window call
emits the `[start, start+len)` slice of those pre-decoded columns, and
that slice equals exactly what decoding only the sliced spans
(`fillKeyColumns` over the index range `[start, start+len)`) would
produce — the correctness-preserving optimization over per-window
re-decoding. -/
theorem keys_decoded_once_and_windows_slice
    (dict : DictionaryType) (mbs : Nat) (spans : List (List Nat)) (cn : List String)
    (s : DictionaryBlockInputStream) (start len : Nat)
    (hok : DictionaryBlockInputStream.ofKeys dict mbs spans cn = .ok s)
    (hwin : start + len ≤ spans.length) :
    fillKeyColumns spans start (start + len) dict.getStructure
      = .ok (s.key_columns.map (fun kc =>
          ⟨kc.column.cut start len, kc.type, kc.name⟩)) ∧
    s.getBlock start len
      = fillBlock .byKey dict cn []
          (s.key_columns.map (fun kc =>
            ⟨kc.column.cut start len, kc.type, kc.name⟩)) := by
  refine ⟨?_, ofKeys_getBlock_eq hok start len⟩
  obtain ⟨-, -, -, -, hkc⟩ := ofKeys_ok_fields hok
  rw [fillKeyColumns] at hkc
  simp only [Nat.sub_zero] at hkc
  obtain ⟨hall, hcols⟩ := loop_ok_iff.mp hkc
  have hfull : (List.range' 0 spans.length).map (fun i => spans.getD i []) = spans := by
    rw [map_range'_getD spans spans.length 0 (by omega)]
    simp
  rw [hfull] at hcols
  rw [fillKeyColumns]
  have hsub : start + len - start = len := by omega
  rw [hsub]
  refine loop_ok_iff.mpr ⟨?_, ?_⟩
  · intro i hi
    obtain ⟨h1, h2⟩ := List.mem_range'_1.mp hi
    exact hall i (List.mem_range'_1.mpr ⟨by omega, by omega⟩)
  · rw [map_range'_getD spans len start hwin, hcols]
    have hsplit : spans
        = spans.take start ++ (((spans.drop start).take len)
            ++ spans.drop (start + len)) := by
      calc spans = spans.take start ++ spans.drop start :=
            (List.take_append_drop start spans).symm
        _ = spans.take start ++ (((spans.drop start).take len)
              ++ ((spans.drop start).drop len)) := by
            rw [List.take_append_drop len (spans.drop start)]
        _ = spans.take start ++ (((spans.drop start).take len)
              ++ spans.drop (start + len)) := by
            rw [List.drop_drop]
    conv_lhs => rw [hsplit]
    rw [pushSpans_append,
      pushSpans_decompose (((spans.drop start).take len) ++ spans.drop (start + len))
        (pushSpans (fillKeyColumnsAlloc (dict.getStructure.key.getD []))
          (spans.take start))]
    have hema : emptiedCols (pushSpans
        (fillKeyColumnsAlloc (dict.getStructure.key.getD [])) (spans.take start))
        = fillKeyColumnsAlloc (dict.getStructure.key.getD []) :=
      (pushSpans_emptied _ _).trans (alloc_emptied _)
    have hemb : emptiedCols (pushSpans
        (fillKeyColumnsAlloc (dict.getStructure.key.getD []))
        ((spans.drop start).take len))
        = fillKeyColumnsAlloc (dict.getStructure.key.getD []) :=
      (pushSpans_emptied _ _).trans (alloc_emptied _)
    have hemc : emptiedCols (pushSpans
        (fillKeyColumnsAlloc (dict.getStructure.key.getD []))
        (spans.drop (start + len)))
        = fillKeyColumnsAlloc (dict.getStructure.key.getD []) :=
      (pushSpans_emptied _ _).trans (alloc_emptied _)
    rw [hema, pushSpans_append,
      pushSpans_decompose (spans.drop (start + len))
        (pushSpans (fillKeyColumnsAlloc (dict.getStructure.key.getD []))
          ((spans.drop start).take len)),
      hemb]
    refine cutCols3 _ _ _ (hema.trans hemb.symm) (hemb.trans hemc.symm) ?_ ?_
    · intro x hx
      have hs := pushSpans_sizes_of (alloc_sizes _) (spans.take start) x hx
      rw [hs]
      simp
      omega
    · intro x hx
      have hs := pushSpans_sizes_of (alloc_sizes _) ((spans.drop start).take len) x hx
      rw [hs]
      simp
      omega

/-- Witness for C4 at a concrete input: slicing the once-decoded key
column of spans [1], [2] to window (1, 1) equals decoding span [2]
alone. -/
theorem keys_decoded_once_and_windows_slice_witness :
    fillKeyColumns [[1], [2]] 1 2 demoKeyDict.getStructure
      = .ok ((DictionaryBlockInputStream.mk demoKeyDict ["k1"] []
          [⟨.vec .uint8 [1, 2], "UInt8", "k1"⟩] .byKey).key_columns.map
          (fun kc => ⟨kc.column.cut 1 1, kc.type, kc.name⟩)) :=
  (keys_decoded_once_and_windows_slice demoKeyDict 8 [[1], [2]] ["k1"]
    (DictionaryBlockInputStream.mk demoKeyDict ["k1"] []
      [⟨.vec .uint8 [1, 2], "UInt8", "k1"⟩] .byKey)
    1 1 rfl (by decide)).1

/-- Claim C2: for every span processed by `fillKeyColumns`, after all
sub-field columns have each decoded one value from the cursor walk
starting at the span's start, the cursor must equal exactly the span's
end offset — when a processed span violates this (in particular when it
carries a trailing extra byte), the whole call fails with the fatal
decode error and, the result being an `Except.error`, no partial
columns are returned. -/
theorem key_decode_exact_consumption :
    (∀ (keys : List (List Nat)) (start size : Nat) (st : DictionaryStructure)
       (cols : List ColumnWithTypeAndName) (idx : Nat),
       fillKeyColumns keys start size st = .ok cols →
       start ≤ idx → idx < size →
       SpanDecodesExactly (colShapes (fillKeyColumnsAlloc (st.key.getD [])))
         (keys.getD idx [])) ∧
    (∀ (keys : List (List Nat)) (start size : Nat) (st : DictionaryStructure)
       (idx : Nat),
       start ≤ idx → idx < size →
       ¬ SpanDecodesExactly (colShapes (fillKeyColumnsAlloc (st.key.getD [])))
           (keys.getD idx []) →
       ∃ e, fillKeyColumns keys start size st = .error e) ∧
    fillKeyColumns [[1, 7]] 0 1 demoKeyStructure
      = .error "DictionaryBlockInputStream: unable to deserialize data" := by
  have h1 : ∀ (keys : List (List Nat)) (start size : Nat) (st : DictionaryStructure)
      (cols : List ColumnWithTypeAndName) (idx : Nat),
      fillKeyColumns keys start size st = .ok cols →
      start ≤ idx → idx < size →
      SpanDecodesExactly (colShapes (fillKeyColumnsAlloc (st.key.getD [])))
        (keys.getD idx []) := by
    intro keys start size st cols idx hok hle hlt
    rw [fillKeyColumns] at hok
    obtain ⟨hall, -⟩ := loop_ok_iff.mp hok
    exact hall idx (List.mem_range'_1.mpr ⟨hle, by omega⟩)
  refine ⟨h1, ?_, rfl⟩
  intro keys start size st idx hle hlt hnot
  cases hres : fillKeyColumns keys start size st with
  | ok cols => exact absurd (h1 keys start size st cols idx hres hle hlt) hnot
  | error e => exact ⟨e, rfl⟩

/-- Witness for C2 at a concrete input: in a successful decode of the
single-byte spans [1] and [2] against one UInt8 sub-field, each span is
consumed exactly. -/
theorem key_decode_exact_consumption_witness :
    SpanDecodesExactly
      (colShapes (fillKeyColumnsAlloc (demoKeyStructure.key.getD [])))
      (List.getD [[1], [2]] 0 []) :=
  key_decode_exact_consumption.1 [[1], [2]] 0 2 demoKeyStructure
    [⟨.vec .uint8 [1, 2], "UInt8", "k1"⟩] 0 rfl (by decide) (by decide)

/-- Witness for C5 at a concrete input: the id column of the demo
adapter's window (1, 2) block has two rows. -/
theorem produced_block_column_sizes_witness :
    (⟨Column.vec .uint64 [20, 30], "UInt64", "id"⟩ : ColumnWithTypeAndName).column.size
      = 2 :=
  (produced_block_column_sizes demoIdDict 8 1 2 ["id", "x"]
    ⟨fun _ _ _ _ => rfl,
     fun _ ids => by simp [demoIdDict],
     fun _ _ _ _ _ => rfl,
     fun _ keys _ k ks hk => by subst hk; simp [demoIdDict]⟩).1
    [10, 20, 30] (by decide)
    ⟨Column.vec .uint64 [20, 30], "UInt64", "id"⟩ (by decide)

/-- Witness for C7 at a concrete input: a name absent from the
structure never appears, and an empty request yields zero columns. -/
theorem unknown_names_never_appear_witness :
    (∀ c ∈ ((DictionaryBlockInputStream.ofIds demoIdDict 8 [10] ["id", "zzz"]).getBlock 0 1).columns,
       c.name ∈ ["id", "zzz"] ∧ c.name ∈ structureNames demoIdDict.getStructure) ∧
    ((DictionaryBlockInputStream.ofIds demoIdDict 8 [10] []).getBlock 0 1).columns = [] :=
  ⟨fun c hc => unknown_names_never_appear.1 demoIdDict 8 [10] ["id", "zzz"] 0 1 c hc,
   unknown_names_never_appear.2.2.1 demoIdDict 8 [10] 0 1⟩

end DB
